import Mathlib

set_option maxHeartbeats 1000000

noncomputable section

/-- A 3-component real vector: the vector algebra kernel used by the
reflexion-basis coordinate transform (spec section 2). -/
@[ext]
structure Vec3 where
  x : ℝ
  y : ℝ
  z : ℝ

/-- The zero vector. -/
def Vec3.zero : Vec3 := ⟨0, 0, 0⟩

/-- Componentwise vector addition. -/
def Vec3.add (a b : Vec3) : Vec3 := ⟨a.x + b.x, a.y + b.y, a.z + b.z⟩

/-- Componentwise vector subtraction. -/
def Vec3.sub (a b : Vec3) : Vec3 := ⟨a.x - b.x, a.y - b.y, a.z - b.z⟩

/-- Scalar multiplication of a vector. -/
def Vec3.smul (r : ℝ) (v : Vec3) : Vec3 := ⟨r * v.x, r * v.y, r * v.z⟩

/-- Euclidean dot product. -/
def Vec3.dot (a b : Vec3) : ℝ := a.x * b.x + a.y * b.y + a.z * b.z

/-- Cross product. -/
def Vec3.cross (a b : Vec3) : Vec3 :=
  ⟨a.y * b.z - a.z * b.y, a.z * b.x - a.x * b.z, a.x * b.y - a.y * b.x⟩

/-- Euclidean length of a vector. -/
def Vec3.norm (v : Vec3) : ℝ := Real.sqrt (v.dot v)

/-- Normalization to unit length. -/
def Vec3.normalize (v : Vec3) : Vec3 := Vec3.smul (1 / v.norm) v

theorem Vec3.dot_comm (a b : Vec3) : a.dot b = b.dot a := by
  simp only [Vec3.dot]; ring

theorem Vec3.dot_self_nonneg (v : Vec3) : 0 ≤ v.dot v := by
  simp only [Vec3.dot]
  nlinarith [mul_self_nonneg v.x, mul_self_nonneg v.y, mul_self_nonneg v.z]

theorem Vec3.norm_nonneg (v : Vec3) : 0 ≤ v.norm := Real.sqrt_nonneg _

theorem Vec3.norm_sq (v : Vec3) : v.norm ^ 2 = v.dot v :=
  Real.sq_sqrt v.dot_self_nonneg

theorem Vec3.dot_self_eq_zero_iff (v : Vec3) : v.dot v = 0 ↔ v = Vec3.zero := by
  constructor
  · intro h
    simp only [Vec3.dot] at h
    ext
    all_goals simp only [Vec3.zero]
    · nlinarith [mul_self_nonneg v.x, mul_self_nonneg v.y, mul_self_nonneg v.z]
    · nlinarith [mul_self_nonneg v.x, mul_self_nonneg v.y, mul_self_nonneg v.z]
    · nlinarith [mul_self_nonneg v.x, mul_self_nonneg v.y, mul_self_nonneg v.z]
  · intro h
    subst h
    simp [Vec3.dot, Vec3.zero]

theorem Vec3.dot_self_pos (v : Vec3) (h : v ≠ Vec3.zero) : 0 < v.dot v := by
  rcases lt_or_eq_of_le v.dot_self_nonneg with h1 | h1
  · exact h1
  · exact absurd ((Vec3.dot_self_eq_zero_iff v).mp h1.symm) h

theorem Vec3.norm_pos (v : Vec3) (h : v ≠ Vec3.zero) : 0 < v.norm :=
  Real.sqrt_pos.mpr (v.dot_self_pos h)

theorem Vec3.norm_ne_zero (v : Vec3) (h : v ≠ Vec3.zero) : v.norm ≠ 0 :=
  ne_of_gt (v.norm_pos h)

theorem Vec3.dot_smul_left (r : ℝ) (a b : Vec3) :
    (Vec3.smul r a).dot b = r * a.dot b := by
  simp only [Vec3.smul, Vec3.dot]; ring

theorem Vec3.dot_smul_right (r : ℝ) (a b : Vec3) :
    a.dot (Vec3.smul r b) = r * a.dot b := by
  simp only [Vec3.smul, Vec3.dot]; ring

theorem Vec3.dot_sub_left (a b c : Vec3) :
    (a.sub b).dot c = a.dot c - b.dot c := by
  simp only [Vec3.sub, Vec3.dot]; ring

theorem Vec3.normalize_dot_self (v : Vec3) (h : v ≠ Vec3.zero) :
    v.normalize.dot v.normalize = 1 := by
  have hd := v.dot_self_pos h
  have hn := v.norm_ne_zero h
  have hs := v.norm_sq
  simp only [Vec3.normalize, Vec3.dot_smul_left, Vec3.dot_smul_right]
  field_simp
  nlinarith [hs]

theorem Vec3.norm_eq_one_of_dot (v : Vec3) (h : v.dot v = 1) : v.norm = 1 := by
  simp only [Vec3.norm, h, Real.sqrt_one]

theorem Vec3.cross_dot_left (a b : Vec3) : (a.cross b).dot a = 0 := by
  simp only [Vec3.cross, Vec3.dot]; ring

theorem Vec3.cross_dot_right (a b : Vec3) : (a.cross b).dot b = 0 := by
  simp only [Vec3.cross, Vec3.dot]; ring

theorem Vec3.lagrange (a b : Vec3) :
    (a.cross b).dot (a.cross b) = (a.dot a) * (b.dot b) - (a.dot b) ^ 2 := by
  simp only [Vec3.cross, Vec3.dot]; ring

/-- Gram-determinant identity: the squared triple product equals the
determinant of the Gram matrix of the three vectors. -/
theorem Vec3.gram (a b v : Vec3) :
    (v.dot (a.cross b)) ^ 2 =
      (v.dot v) * ((a.dot a) * (b.dot b) - (a.dot b) ^ 2)
        - (v.dot a) ^ 2 * (b.dot b) - (v.dot b) ^ 2 * (a.dot a)
        + 2 * (v.dot a) * (v.dot b) * (a.dot b) := by
  simp only [Vec3.cross, Vec3.dot]; ring

/-- Parseval identity for the orthonormal triple a, b, a × b. -/
theorem Vec3.parseval (a b v : Vec3) (ha : a.dot a = 1) (hb : b.dot b = 1)
    (hab : a.dot b = 0) :
    (v.dot a) ^ 2 + (v.dot b) ^ 2 + (v.dot (a.cross b)) ^ 2 = v.dot v := by
  rw [Vec3.gram, ha, hb, hab]
  ring

theorem Vec3.one_smul (v : Vec3) : Vec3.smul 1 v = v := by
  ext <;> simp [Vec3.smul]

theorem Vec3.smul_smul (r t : ℝ) (v : Vec3) :
    Vec3.smul r (Vec3.smul t v) = Vec3.smul (r * t) v := by
  ext <;> simp [Vec3.smul] <;> ring

/-- Cramer-rule identity expressing any vector over the (possibly skew)
frame a, b, a × b; a pure polynomial identity in the components. -/
theorem Vec3.cramer (a b v : Vec3) :
    ((Vec3.smul ((v.dot a) * (b.dot b) - (v.dot b) * (a.dot b)) a).add
      ((Vec3.smul ((v.dot b) * (a.dot a) - (v.dot a) * (a.dot b)) b).add
        (Vec3.smul (v.dot (a.cross b)) (a.cross b)))) =
      Vec3.smul ((a.dot a) * (b.dot b) - (a.dot b) ^ 2) v := by
  ext <;> simp only [Vec3.add, Vec3.smul, Vec3.dot, Vec3.cross] <;> ring

/-- Expansion of any vector over an orthonormal frame a, b, a × b. -/
theorem Vec3.frame_recon (a b v : Vec3) (ha : a.dot a = 1) (hb : b.dot b = 1)
    (hab : a.dot b = 0) :
    ((Vec3.smul (v.dot a) a).add
      ((Vec3.smul (v.dot b) b).add
        (Vec3.smul (v.dot (a.cross b)) (a.cross b)))) = v := by
  have h := Vec3.cramer a b v
  rw [ha, hb, hab] at h
  have e1 : (v.dot a) * 1 - (v.dot b) * 0 = v.dot a := by ring
  have e2 : (v.dot b) * 1 - (v.dot a) * 0 = v.dot b := by ring
  have e3 : (1 : ℝ) * 1 - 0 ^ 2 = 1 := by norm_num
  rw [e1, e2, e3, Vec3.one_smul] at h
  exact h

/-- Modelled from the spec: the DIALS reflexion-basis CoordinateSystem.
The C++ implementation (dials/algorithms/reflexion_basis) is absent from
the sources; only its Python test is present, so the data model follows
spec sections 3 and 4.1. The stored rotation axis m2 is the normalized
axis; s0 and s1 are the incident and diffracted beam vectors, phi the
rotation angle of the observed reflection. -/
structure CoordinateSystem where
  m2 : Vec3
  s0 : Vec3
  s1 : Vec3
  phi : ℝ

/-- Modelled from the spec: the constructor normalizes m2 (spec 4.1:
"m2 need not be pre-normalized (constructor normalizes it)"). -/
def CoordinateSystem.make (m2 s0 s1 : Vec3) (phi : ℝ) : CoordinateSystem :=
  ⟨m2.normalize, s0, s1, phi⟩

/-- Modelled from the spec: e1 = normalize(s1 × s0) (spec section 3). -/
def CoordinateSystem.e1_axis (cs : CoordinateSystem) : Vec3 :=
  (cs.s1.cross cs.s0).normalize

/-- Modelled from the spec: e2 = (s1 × e1) / norm(s1) (spec section 3). -/
def CoordinateSystem.e2_axis (cs : CoordinateSystem) : Vec3 :=
  Vec3.smul (1 / cs.s1.norm) (cs.s1.cross cs.e1_axis)

/-- Modelled from the spec: e3 = normalize(s0 + s1) (spec section 3). -/
def CoordinateSystem.e3_axis (cs : CoordinateSystem) : Vec3 :=
  (cs.s0.add cs.s1).normalize

/-- Modelled from the spec: the scattering vector p* = s1 - s0. -/
def CoordinateSystem.p_star (cs : CoordinateSystem) : Vec3 :=
  cs.s1.sub cs.s0

/-- Modelled from the spec: zeta = m2 . e1, the Lorentz component of the
rotation axis (spec section 3). -/
def CoordinateSystem.zeta (cs : CoordinateSystem) : ℝ :=
  cs.m2.dot cs.e1_axis

/-- Modelled from the spec: the product of the projections of the rotation
axis onto e3 and onto the unit scattering vector; this is the coefficient
of the (1 - cos) term in the exact rotation-angle coordinate (spec 4.3,
and the explicit formula zeta * sin + (m2.e3)(m2.p-hat) * (1 - cos)
checked against FromRotationAngleAccurate in the test file
tst_coordinate_system.py, lines 469-475). -/
def CoordinateSystem.kappa (cs : CoordinateSystem) : ℝ :=
  (cs.m2.dot cs.e3_axis) * (cs.m2.dot cs.p_star.normalize)

/-- Validity of a constructed system (spec section 6: nondegenerate,
non-collinear beams; section 3: elastic scattering, equal beam lengths;
the stored axis is the normalized one). -/
def CoordinateSystem.Valid (cs : CoordinateSystem) : Prop :=
  cs.s1.cross cs.s0 ≠ Vec3.zero ∧ cs.s0.norm = cs.s1.norm ∧ cs.m2.norm = 1

/-- Modelled from the spec: the exact (accurate) rotation-angle coordinate,
c3 as a function of the candidate angle (spec 4.3; formula confirmed by
the test file, lines 469-475). -/
def from_rotation_angle_accurate (cs : CoordinateSystem) (phiDash : ℝ) : ℝ :=
  cs.zeta * Real.sin (phiDash - cs.phi) +
    cs.kappa * (1 - Real.cos (phiDash - cs.phi))

/-- Modelled from the spec: the fast linearized rotation-angle coordinate,
c3 = zeta * (phiDash - phi) (spec 4.3). -/
def from_rotation_angle_fast (cs : CoordinateSystem) (phiDash : ℝ) : ℝ :=
  cs.zeta * (phiDash - cs.phi)

/-- Modelled from the spec: limits() = (c1_min, c1_max, c3_min, c3_max)
with c1 limits -1 and +1 and the c3 limits being the rotation-angle
coordinate values reached at phi -+ pi/2 (spec 4.1). -/
def CoordinateSystem.limits (cs : CoordinateSystem) : ℝ × ℝ × ℝ × ℝ :=
  (-1, 1, from_rotation_angle_accurate cs (cs.phi - Real.pi / 2),
    from_rotation_angle_accurate cs (cs.phi + Real.pi / 2))

/-- The typed, recoverable error raised by the inverse transforms on
coordinates outside the geometrically valid range (spec section 7). -/
inductive XdsError where
  | domainError
deriving DecidableEq

/-- Modelled from the spec: FromBeamVector, the local coordinate pair of a
candidate diffracted beam direction (spec 4.2). -/
def from_beam_vector (cs : CoordinateSystem) (s : Vec3) : ℝ × ℝ :=
  (((s.sub cs.s1).dot cs.e1_axis) / cs.s1.norm,
    ((s.sub cs.s1).dot cs.e2_axis) / cs.s1.norm)

/-- Modelled from the spec: ToBeamVector, the inverse beam-vector map;
valid only when c1^2 + c2^2 <= 1, with the third component scale factor
sqrt(1 - c1^2 - c2^2) along the s1 direction; raises a domain error
otherwise (spec 4.2). -/
def to_beam_vector (cs : CoordinateSystem) (c : ℝ × ℝ) : Except XdsError Vec3 :=
  if c.1 ^ 2 + c.2 ^ 2 ≤ 1 then
    Except.ok (Vec3.smul cs.s1.norm
      (((Vec3.smul c.1 cs.e1_axis).add (Vec3.smul c.2 cs.e2_axis)).add
        (Vec3.smul (Real.sqrt (1 - c.1 ^ 2 - c.2 ^ 2)) cs.s1.normalize)))
  else Except.error XdsError.domainError

/-- Modelled from the spec: ToRotationAngleFast, phi + c3 / zeta, with a
domain error instead of a division by zero when zeta = 0 (spec 4.4). -/
def to_rotation_angle_fast (cs : CoordinateSystem) (c3 : ℝ) : Except XdsError ℝ :=
  if cs.zeta = 0 then Except.error XdsError.domainError
  else Except.ok (cs.phi + c3 / cs.zeta)

/-- Modelled from the spec: ToRotationAngleAccurate. Raises a domain error
when c3 lies beyond the stored limits()[2:] values (spec 4.4 and 8);
otherwise solves the circle intersection for the branch continuous with
the forward map at phiDash = phi (spec 4.4 and design note 9): writing
c3(theta) = kappa + R * sin(theta -+ A) with R = sqrt(zeta^2 + kappa^2)
and A = arcsin(kappa / R), the branch through the origin is
theta = sign(zeta) * (arcsin((c3 - kappa) / R) + A). -/
def to_rotation_angle_accurate (cs : CoordinateSystem) (c3 : ℝ) :
    Except XdsError ℝ :=
  if c3 < min cs.limits.2.2.1 cs.limits.2.2.2 ∨
      max cs.limits.2.2.1 cs.limits.2.2.2 < c3 then
    Except.error XdsError.domainError
  else
    Except.ok (cs.phi + Real.sign cs.zeta *
      (Real.arcsin ((c3 - cs.kappa) / Real.sqrt (cs.zeta ^ 2 + cs.kappa ^ 2)) +
        Real.arcsin (cs.kappa / Real.sqrt (cs.zeta ^ 2 + cs.kappa ^ 2))))

theorem CoordinateSystem.s1_ne_zero (cs : CoordinateSystem) (h : cs.Valid) :
    cs.s1 ≠ Vec3.zero := by
  intro h0
  apply h.1
  rw [h0]
  ext <;> simp [Vec3.cross, Vec3.zero]

theorem CoordinateSystem.sum_ne_zero (cs : CoordinateSystem) (h : cs.Valid) :
    cs.s0.add cs.s1 ≠ Vec3.zero := by
  intro h0
  apply h.1
  have hx : cs.s0.x + cs.s1.x = 0 := congrArg Vec3.x h0
  have hy : cs.s0.y + cs.s1.y = 0 := congrArg Vec3.y h0
  have hz : cs.s0.z + cs.s1.z = 0 := congrArg Vec3.z h0
  ext <;> simp only [Vec3.cross, Vec3.zero]
  · linear_combination cs.s1.y * hz - cs.s1.z * hy
  · linear_combination cs.s1.z * hx - cs.s1.x * hz
  · linear_combination cs.s1.x * hy - cs.s1.y * hx

theorem CoordinateSystem.pstar_ne_zero (cs : CoordinateSystem) (h : cs.Valid) :
    cs.p_star ≠ Vec3.zero := by
  intro h0
  apply h.1
  have hx : cs.s1.x - cs.s0.x = 0 := congrArg Vec3.x h0
  have hy : cs.s1.y - cs.s0.y = 0 := congrArg Vec3.y h0
  have hz : cs.s1.z - cs.s0.z = 0 := congrArg Vec3.z h0
  ext <;> simp only [Vec3.cross, Vec3.zero]
  · linear_combination (-cs.s1.y) * hz + cs.s1.z * hy
  · linear_combination (-cs.s1.z) * hx + cs.s1.x * hz
  · linear_combination (-cs.s1.x) * hy + cs.s1.y * hx

theorem CoordinateSystem.e1_dot_e1 (cs : CoordinateSystem) (h : cs.Valid) :
    cs.e1_axis.dot cs.e1_axis = 1 :=
  Vec3.normalize_dot_self _ h.1

theorem CoordinateSystem.s1_dot_e1 (cs : CoordinateSystem) :
    cs.s1.dot cs.e1_axis = 0 := by
  simp only [CoordinateSystem.e1_axis, Vec3.normalize, Vec3.dot_smul_right]
  rw [Vec3.dot_comm, Vec3.cross_dot_left, mul_zero]

theorem CoordinateSystem.s0_dot_e1 (cs : CoordinateSystem) :
    cs.s0.dot cs.e1_axis = 0 := by
  simp only [CoordinateSystem.e1_axis, Vec3.normalize, Vec3.dot_smul_right]
  rw [Vec3.dot_comm, Vec3.cross_dot_right, mul_zero]

theorem CoordinateSystem.s1_dot_e2 (cs : CoordinateSystem) :
    cs.s1.dot cs.e2_axis = 0 := by
  simp only [CoordinateSystem.e2_axis, Vec3.dot_smul_right]
  rw [Vec3.dot_comm, Vec3.cross_dot_left, mul_zero]

theorem CoordinateSystem.e1_dot_e2 (cs : CoordinateSystem) :
    cs.e1_axis.dot cs.e2_axis = 0 := by
  simp only [CoordinateSystem.e2_axis, Vec3.dot_smul_right]
  rw [Vec3.dot_comm, Vec3.cross_dot_right, mul_zero]

theorem CoordinateSystem.e2_dot_e2 (cs : CoordinateSystem) (h : cs.Valid) :
    cs.e2_axis.dot cs.e2_axis = 1 := by
  have hn1 : cs.s1.norm ≠ 0 := Vec3.norm_ne_zero _ (cs.s1_ne_zero h)
  have hs1 : cs.s1.norm ^ 2 = cs.s1.dot cs.s1 := Vec3.norm_sq _
  have he1 := cs.e1_dot_e1 h
  have hse : cs.s1.dot cs.e1_axis = 0 := cs.s1_dot_e1
  simp only [CoordinateSystem.e2_axis, Vec3.dot_smul_left, Vec3.dot_smul_right,
    Vec3.lagrange, he1, hse]
  field_simp
  linarith [hs1]

theorem CoordinateSystem.e3_dot_e3 (cs : CoordinateSystem) (h : cs.Valid) :
    cs.e3_axis.dot cs.e3_axis = 1 :=
  Vec3.normalize_dot_self _ (cs.sum_ne_zero h)

theorem CoordinateSystem.e1_dot_e3 (cs : CoordinateSystem) :
    cs.e1_axis.dot cs.e3_axis = 0 := by
  simp only [CoordinateSystem.e1_axis, CoordinateSystem.e3_axis, Vec3.normalize,
    Vec3.dot_smul_left, Vec3.dot_smul_right]
  have : (cs.s1.cross cs.s0).dot (cs.s0.add cs.s1) = 0 := by
    simp only [Vec3.cross, Vec3.add, Vec3.dot]; ring
  rw [this, mul_zero, mul_zero]

theorem CoordinateSystem.dot_s0_eq_dot_s1 (cs : CoordinateSystem) (h : cs.Valid) :
    cs.s0.dot cs.s0 = cs.s1.dot cs.s1 := by
  rw [← Vec3.norm_sq, ← Vec3.norm_sq, h.2.1]

theorem CoordinateSystem.e3_dot_pstar (cs : CoordinateSystem) (h : cs.Valid) :
    cs.e3_axis.dot cs.p_star = 0 := by
  have hdot := cs.dot_s0_eq_dot_s1 h
  simp only [CoordinateSystem.e3_axis, CoordinateSystem.p_star, Vec3.normalize,
    Vec3.dot_smul_left]
  have h0 : (cs.s0.add cs.s1).dot (cs.s1.sub cs.s0) = 0 := by
    simp only [Vec3.add, Vec3.sub, Vec3.dot] at hdot ⊢
    linear_combination (-1 : ℝ) * hdot
  rw [h0, mul_zero]

theorem CoordinateSystem.e1_dot_pstar (cs : CoordinateSystem) :
    cs.e1_axis.dot cs.p_star = 0 := by
  simp only [CoordinateSystem.e1_axis, CoordinateSystem.p_star, Vec3.normalize,
    Vec3.dot_smul_left]
  have h0 : (cs.s1.cross cs.s0).dot (cs.s1.sub cs.s0) = 0 := by
    simp only [Vec3.cross, Vec3.sub, Vec3.dot]; ring
  rw [h0, mul_zero]

theorem CoordinateSystem.m2_dot_m2 (cs : CoordinateSystem) (h : cs.Valid) :
    cs.m2.dot cs.m2 = 1 := by
  have := Vec3.norm_sq cs.m2
  rw [h.2.2] at this
  linarith [this]

/-- Concrete valid system: axis along e1 (zeta = 1, kappa = 0). -/
def csA : CoordinateSystem :=
  CoordinateSystem.make ⟨1, 0, 0⟩ ⟨0, 0, 1⟩ ⟨0, 1, 0⟩ 0

/-- Concrete valid system with the rotation axis orthogonal to e1
(zeta = 0, kappa = 1/2). -/
def csB : CoordinateSystem :=
  CoordinateSystem.make ⟨0, 1, 0⟩ ⟨0, 0, 1⟩ ⟨0, 1, 0⟩ 0

theorem csA_m2 : csA.m2 = ⟨1, 0, 0⟩ := by
  ext <;>
    simp [csA, CoordinateSystem.make, Vec3.normalize, Vec3.smul, Vec3.norm,
      Vec3.dot]

theorem csA_s0 : csA.s0 = ⟨0, 0, 1⟩ := rfl

theorem csA_s1 : csA.s1 = ⟨0, 1, 0⟩ := rfl

theorem csA_phi : csA.phi = 0 := rfl

theorem csA_cross : csA.s1.cross csA.s0 = ⟨1, 0, 0⟩ := by
  ext <;> simp [csA, CoordinateSystem.make, Vec3.cross]

theorem csA_e1 : csA.e1_axis = ⟨1, 0, 0⟩ := by
  rw [CoordinateSystem.e1_axis, csA_cross]
  ext <;> simp [Vec3.normalize, Vec3.smul, Vec3.norm, Vec3.dot]

theorem csA_n1 : csA.s1.norm = 1 := by
  simp [csA, CoordinateSystem.make, Vec3.norm, Vec3.dot]

theorem csA_e2 : csA.e2_axis = ⟨0, 0, -1⟩ := by
  rw [CoordinateSystem.e2_axis, csA_e1, csA_n1, csA_s1]
  ext <;> simp [Vec3.smul, Vec3.cross]

theorem csA_e3 : csA.e3_axis = Vec3.smul (1 / Real.sqrt 2) ⟨0, 1, 1⟩ := by
  rw [CoordinateSystem.e3_axis]
  have hsum : csA.s0.add csA.s1 = ⟨0, 1, 1⟩ := by
    ext <;> simp [csA, CoordinateSystem.make, Vec3.add]
  rw [hsum]
  ext <;> simp [Vec3.normalize, Vec3.smul, Vec3.norm, Vec3.dot] <;> norm_num

theorem csA_zeta : csA.zeta = 1 := by
  rw [CoordinateSystem.zeta, csA_m2, csA_e1]
  simp [Vec3.dot]

theorem csA_kappa : csA.kappa = 0 := by
  rw [CoordinateSystem.kappa, csA_m2, csA_e3]
  simp [Vec3.dot_smul_right, Vec3.smul, Vec3.dot]

theorem csA_valid : csA.Valid := by
  refine ⟨?_, ?_, ?_⟩
  · rw [csA_cross]
    intro h0
    have hx : (1 : ℝ) = 0 := congrArg Vec3.x h0
    norm_num at hx
  · simp [csA, CoordinateSystem.make, Vec3.norm, Vec3.dot]
  · rw [csA_m2]
    simp [Vec3.norm, Vec3.dot]

theorem csB_m2 : csB.m2 = ⟨0, 1, 0⟩ := by
  ext <;>
    simp [csB, CoordinateSystem.make, Vec3.normalize, Vec3.smul, Vec3.norm,
      Vec3.dot]

theorem csB_s1 : csB.s1 = ⟨0, 1, 0⟩ := rfl

theorem csB_phi : csB.phi = 0 := rfl

theorem csB_cross : csB.s1.cross csB.s0 = ⟨1, 0, 0⟩ := by
  ext <;> simp [csB, CoordinateSystem.make, Vec3.cross]

theorem csB_e1 : csB.e1_axis = ⟨1, 0, 0⟩ := by
  rw [CoordinateSystem.e1_axis, csB_cross]
  ext <;> simp [Vec3.normalize, Vec3.smul, Vec3.norm, Vec3.dot]

theorem csB_e3 : csB.e3_axis = Vec3.smul (1 / Real.sqrt 2) ⟨0, 1, 1⟩ := by
  rw [CoordinateSystem.e3_axis]
  have hsum : csB.s0.add csB.s1 = ⟨0, 1, 1⟩ := by
    ext <;> simp [csB, CoordinateSystem.make, Vec3.add]
  rw [hsum]
  ext <;> simp [Vec3.normalize, Vec3.smul, Vec3.norm, Vec3.dot] <;> norm_num

theorem csB_pstar_hat : csB.p_star.normalize = Vec3.smul (1 / Real.sqrt 2) ⟨0, 1, -1⟩ := by
  have hps : csB.p_star = ⟨0, 1, -1⟩ := by
    ext <;> simp [csB, CoordinateSystem.make, CoordinateSystem.p_star, Vec3.sub]
  rw [hps]
  ext <;> simp [Vec3.normalize, Vec3.smul, Vec3.norm, Vec3.dot] <;> norm_num

theorem csB_zeta : csB.zeta = 0 := by
  rw [CoordinateSystem.zeta, csB_m2, csB_e1]
  simp [Vec3.dot]

theorem csB_kappa : csB.kappa = 1 / 2 := by
  rw [CoordinateSystem.kappa, csB_m2, csB_e3, csB_pstar_hat]
  have h2 : Real.sqrt 2 * Real.sqrt 2 = 2 := Real.mul_self_sqrt (by norm_num)
  have hpos : (0 : ℝ) < Real.sqrt 2 := Real.sqrt_pos.mpr (by norm_num)
  simp only [Vec3.dot_smul_right, Vec3.smul, Vec3.dot]
  field_simp

theorem csB_valid : csB.Valid := by
  refine ⟨?_, ?_, ?_⟩
  · rw [csB_cross]
    intro h0
    have hx : (1 : ℝ) = 0 := congrArg Vec3.x h0
    norm_num at hx
  · simp [csB, CoordinateSystem.make, Vec3.norm, Vec3.dot]
  · rw [csB_m2]
    simp [Vec3.norm, Vec3.dot]

theorem Vec3.zero_dot (v : Vec3) : Vec3.zero.dot v = 0 := by
  simp [Vec3.zero, Vec3.dot]

theorem csA_l2 : csA.limits.2.2.1 = -1 := by
  show from_rotation_angle_accurate csA (csA.phi - Real.pi / 2) = -1
  rw [from_rotation_angle_accurate, csA_zeta, csA_kappa]
  have harg : csA.phi - Real.pi / 2 - csA.phi = -(Real.pi / 2) := by ring
  rw [harg, Real.sin_neg, Real.sin_pi_div_two]
  ring

theorem csA_l3 : csA.limits.2.2.2 = 1 := by
  show from_rotation_angle_accurate csA (csA.phi + Real.pi / 2) = 1
  rw [from_rotation_angle_accurate, csA_zeta, csA_kappa]
  have harg : csA.phi + Real.pi / 2 - csA.phi = Real.pi / 2 := by ring
  rw [harg, Real.sin_pi_div_two]
  ring

/-- C9: Beam-vector origin: for every validly constructed CoordinateSystem,
from_beam_vector(cs, s1) is exactly (0, 0) (hence within 1e-7). -/
theorem C9_beam_vector_origin (cs : CoordinateSystem) (h : cs.Valid) :
    from_beam_vector cs cs.s1 = (0, 0) := by
  have h1 : cs.s1.sub cs.s1 = Vec3.zero := by
    ext <;> simp [Vec3.sub, Vec3.zero]
  simp [from_beam_vector, h1, Vec3.zero_dot]

theorem C9_beam_vector_origin_witness : from_beam_vector csA csA.s1 = (0, 0) :=
  C9_beam_vector_origin csA csA_valid

/-- C3: to_beam_vector succeeds (returns a beam vector) whenever
c1^2 + c2^2 <= 1 and fails with the typed, recoverable domain error
whenever c1^2 + c2^2 > 1, for every validly constructed system. -/
theorem C3_to_beam_vector_domain (cs : CoordinateSystem) (c1 c2 : ℝ)
    (h : cs.Valid) :
    (c1 ^ 2 + c2 ^ 2 ≤ 1 → ∃ v, to_beam_vector cs (c1, c2) = Except.ok v) ∧
      (1 < c1 ^ 2 + c2 ^ 2 →
        to_beam_vector cs (c1, c2) = Except.error XdsError.domainError) := by
  constructor
  · intro hle
    simp only [to_beam_vector]
    rw [if_pos hle]
    exact ⟨_, rfl⟩
  · intro hgt
    simp only [to_beam_vector]
    rw [if_neg (not_le.mpr hgt)]

theorem C3_to_beam_vector_domain_witness :
    (∃ v, to_beam_vector csA (1 - 1e-7, 0) = Except.ok v) ∧
      to_beam_vector csA (1 + 1e-7, 0) = Except.error XdsError.domainError ∧
      (∃ v, to_beam_vector csA (0, 1 - 1e-7) = Except.ok v) ∧
      to_beam_vector csA (0, 1 + 1e-7) = Except.error XdsError.domainError :=
  ⟨(C3_to_beam_vector_domain csA (1 - 1e-7) 0 csA_valid).1 (by norm_num),
    (C3_to_beam_vector_domain csA (1 + 1e-7) 0 csA_valid).2 (by norm_num),
    (C3_to_beam_vector_domain csA 0 (1 - 1e-7) csA_valid).1 (by norm_num),
    (C3_to_beam_vector_domain csA 0 (1 + 1e-7) csA_valid).2 (by norm_num)⟩

/-- C6: Accurate forward anchor points: from_rotation_angle_accurate at phi
is exactly 0, and at phi -+ pi/2 it equals the stored limits()[2] and
limits()[3] respectively (exactly, hence within 1e-7). -/
theorem C6_accurate_anchor_points (cs : CoordinateSystem) (h : cs.Valid) :
    from_rotation_angle_accurate cs cs.phi = 0 ∧
      from_rotation_angle_accurate cs (cs.phi - Real.pi / 2) = cs.limits.2.2.1 ∧
      from_rotation_angle_accurate cs (cs.phi + Real.pi / 2) = cs.limits.2.2.2 := by
  refine ⟨?_, rfl, rfl⟩
  simp [from_rotation_angle_accurate]

theorem C6_accurate_anchor_points_witness :
    from_rotation_angle_accurate csA csA.phi = 0 ∧
      from_rotation_angle_accurate csA (csA.phi - Real.pi / 2) = csA.limits.2.2.1 ∧
      from_rotation_angle_accurate csA (csA.phi + Real.pi / 2) = csA.limits.2.2.2 :=
  C6_accurate_anchor_points csA csA_valid

/-- C7: to_rotation_angle_accurate fails with the typed, recoverable domain
error whenever c3 lies beyond the stored limits()[2:] values, and succeeds
(returns an angle) at every c3 between them, for every validly constructed
system. -/
theorem C7_to_rotation_angle_domain (cs : CoordinateSystem) (c3 : ℝ)
    (h : cs.Valid) :
    ((c3 < min cs.limits.2.2.1 cs.limits.2.2.2 ∨
        max cs.limits.2.2.1 cs.limits.2.2.2 < c3) →
      to_rotation_angle_accurate cs c3 = Except.error XdsError.domainError) ∧
      (min cs.limits.2.2.1 cs.limits.2.2.2 ≤ c3 →
        c3 ≤ max cs.limits.2.2.1 cs.limits.2.2.2 →
        ∃ r, to_rotation_angle_accurate cs c3 = Except.ok r) := by
  constructor
  · intro hout
    simp only [to_rotation_angle_accurate]
    rw [if_pos hout]
  · intro h1 h2
    simp only [to_rotation_angle_accurate]
    rw [if_neg (not_or.mpr ⟨not_lt.mpr h1, not_lt.mpr h2⟩)]
    exact ⟨_, rfl⟩

theorem C7_to_rotation_angle_domain_witness :
    to_rotation_angle_accurate csA 2 = Except.error XdsError.domainError ∧
      (∃ r, to_rotation_angle_accurate csA 0 = Except.ok r) :=
  ⟨(C7_to_rotation_angle_domain csA 2 csA_valid).1
      (by rw [csA_l2, csA_l3]; norm_num),
    (C7_to_rotation_angle_domain csA 0 csA_valid).2
      (by rw [csA_l2, csA_l3]; norm_num) (by rw [csA_l2, csA_l3]; norm_num)⟩

/-- C8: to_rotation_angle_fast on a validly constructed system whose zeta
vanishes reports the typed domain error for every c3 instead of dividing
by zero. -/
theorem C8_to_rotation_angle_fast_zero_zeta (cs : CoordinateSystem) (c3 : ℝ)
    (h : cs.Valid) (hz : cs.zeta = 0) :
    to_rotation_angle_fast cs c3 = Except.error XdsError.domainError := by
  simp only [to_rotation_angle_fast]
  rw [if_pos hz]

theorem C8_to_rotation_angle_fast_zero_zeta_witness :
    to_rotation_angle_fast csB (3 / 10) = Except.error XdsError.domainError :=
  C8_to_rotation_angle_fast_zero_zeta csB (3 / 10) csB_valid csB_zeta

/-- The cross product of e1 with the unit diffracted-beam direction is
the negative of e2; a pure algebraic identity of the construction. -/
theorem CoordinateSystem.e1_cross_s1hat (cs : CoordinateSystem) :
    cs.e1_axis.cross cs.s1.normalize = Vec3.smul (-1) cs.e2_axis := by
  ext <;>
    simp only [CoordinateSystem.e2_axis, CoordinateSystem.e1_axis,
      Vec3.normalize, Vec3.smul, Vec3.cross, Vec3.norm] <;>
    ring

/-- C4 (amended): basis invariants for every validly constructed system:
all three axes have unit length; e1 is orthogonal to e2 and to e3; e1 is
orthogonal to s0 and s1; e2 is orthogonal to s1 and e1; e3 is orthogonal
to e1 and to p* = s1 - s0. (All equalities are exact, hence within 1e-7.
The original claim also asserted e2 . e3 = 0, which is false for the
construction of spec section 3; see the counterexample.) -/
theorem C4_basis_orthonormality (cs : CoordinateSystem) (h : cs.Valid) :
    cs.e1_axis.norm = 1 ∧ cs.e2_axis.norm = 1 ∧ cs.e3_axis.norm = 1 ∧
      cs.e1_axis.dot cs.e2_axis = 0 ∧ cs.e1_axis.dot cs.e3_axis = 0 ∧
      cs.e1_axis.dot cs.s0 = 0 ∧ cs.e1_axis.dot cs.s1 = 0 ∧
      cs.e2_axis.dot cs.s1 = 0 ∧ cs.e2_axis.dot cs.e1_axis = 0 ∧
      cs.e3_axis.dot cs.e1_axis = 0 ∧ cs.e3_axis.dot (cs.s1.sub cs.s0) = 0 := by
  refine ⟨Vec3.norm_eq_one_of_dot _ (cs.e1_dot_e1 h),
    Vec3.norm_eq_one_of_dot _ (cs.e2_dot_e2 h),
    Vec3.norm_eq_one_of_dot _ (cs.e3_dot_e3 h),
    cs.e1_dot_e2, cs.e1_dot_e3,
    by rw [Vec3.dot_comm]; exact cs.s0_dot_e1,
    by rw [Vec3.dot_comm]; exact cs.s1_dot_e1,
    by rw [Vec3.dot_comm]; exact cs.s1_dot_e2,
    by rw [Vec3.dot_comm]; exact cs.e1_dot_e2,
    by rw [Vec3.dot_comm]; exact cs.e1_dot_e3,
    cs.e3_dot_pstar h⟩

theorem C4_basis_orthonormality_witness :
    csA.e1_axis.norm = 1 ∧ csA.e2_axis.norm = 1 ∧ csA.e3_axis.norm = 1 ∧
      csA.e1_axis.dot csA.e2_axis = 0 ∧ csA.e1_axis.dot csA.e3_axis = 0 ∧
      csA.e1_axis.dot csA.s0 = 0 ∧ csA.e1_axis.dot csA.s1 = 0 ∧
      csA.e2_axis.dot csA.s1 = 0 ∧ csA.e2_axis.dot csA.e1_axis = 0 ∧
      csA.e3_axis.dot csA.e1_axis = 0 ∧ csA.e3_axis.dot (csA.s1.sub csA.s0) = 0 :=
  C4_basis_orthonormality csA csA_valid

/-- C4 counterexample: in the valid system csA the pairwise dot product
e2 . e3 equals -1/sqrt 2, which is not within 1e-7 of zero, so the
"all pairwise dot products among e1, e2, e3 are 0" part of the claim
fails for the basis defined by the spec formulas. -/
theorem C4_basis_orthonormality_cex :
    csA.Valid ∧ ¬ |csA.e2_axis.dot csA.e3_axis| ≤ 1e-7 := by
  refine ⟨csA_valid, ?_⟩
  have hd : csA.e2_axis.dot csA.e3_axis = -(1 / Real.sqrt 2) := by
    rw [csA_e2, csA_e3]
    simp [Vec3.dot_smul_right, Vec3.smul, Vec3.dot]
  rw [hd, abs_neg, abs_of_nonneg (by positivity)]
  have h2 : Real.sqrt 2 ≤ 2 := by
    nlinarith [Real.sq_sqrt (show (0 : ℝ) ≤ 2 by norm_num), Real.sqrt_nonneg 2]
  have hpos : (0 : ℝ) < Real.sqrt 2 := Real.sqrt_pos.mpr (by norm_num)
  have hge : (1 : ℝ) / 2 ≤ 1 / Real.sqrt 2 := one_div_le_one_div_of_le hpos h2
  intro hle
  norm_num at hle
  rw [← one_div] at hle
  linarith

/-- C10: for every validly constructed system and every beam vector of the
same length as s1 and orthogonal to s1 (any point of the great circle of
the Ewald sphere orthogonal to s1), the radial coordinate
sqrt(c1^2 + c2^2) of from_beam_vector equals the absolute value of the
stored limits()[0], namely 1 (exactly, hence within 1e-7). -/
theorem C10_boundary_circle (cs : CoordinateSystem) (sDash : Vec3)
    (h : cs.Valid) (hlen : sDash.norm = cs.s1.norm)
    (hperp : sDash.dot cs.s1 = 0) :
    Real.sqrt ((from_beam_vector cs sDash).1 ^ 2 +
      (from_beam_vector cs sDash).2 ^ 2) = |cs.limits.1| := by
  have hs1 : cs.s1 ≠ Vec3.zero := cs.s1_ne_zero h
  have hn1 : 0 < cs.s1.norm := Vec3.norm_pos _ hs1
  have hn1' : cs.s1.norm ≠ 0 := ne_of_gt hn1
  have he1 : cs.e1_axis.dot cs.e1_axis = 1 := cs.e1_dot_e1 h
  have hs1h : cs.s1.normalize.dot cs.s1.normalize = 1 :=
    Vec3.normalize_dot_self _ hs1
  have he1s1' : cs.e1_axis.dot cs.s1 = 0 := by
    rw [Vec3.dot_comm]; exact cs.s1_dot_e1
  have he1s1 : cs.e1_axis.dot cs.s1.normalize = 0 := by
    simp only [Vec3.normalize, Vec3.dot_smul_right, he1s1', mul_zero]
  have hp := Vec3.parseval cs.e1_axis cs.s1.normalize sDash he1 hs1h he1s1
  rw [cs.e1_cross_s1hat, Vec3.dot_smul_right] at hp
  have hG : sDash.dot cs.s1.normalize = 0 := by
    simp only [Vec3.normalize, Vec3.dot_smul_right, hperp, mul_zero]
  have hss : sDash.dot sDash = cs.s1.norm ^ 2 := by
    rw [← Vec3.norm_sq, hlen]
  rw [hG, hss] at hp
  have hp' : (sDash.dot cs.e1_axis) ^ 2 + (sDash.dot cs.e2_axis) ^ 2 =
      cs.s1.norm ^ 2 := by nlinarith [hp]
  have hfb1 : (from_beam_vector cs sDash).1 =
      sDash.dot cs.e1_axis / cs.s1.norm := by
    simp only [from_beam_vector, Vec3.dot_sub_left]
    rw [show cs.s1.dot cs.e1_axis = 0 from cs.s1_dot_e1, sub_zero]
  have hfb2 : (from_beam_vector cs sDash).2 =
      sDash.dot cs.e2_axis / cs.s1.norm := by
    simp only [from_beam_vector, Vec3.dot_sub_left]
    rw [show cs.s1.dot cs.e2_axis = 0 from cs.s1_dot_e2, sub_zero]
  rw [hfb1, hfb2]
  have hsum : (sDash.dot cs.e1_axis / cs.s1.norm) ^ 2 +
      (sDash.dot cs.e2_axis / cs.s1.norm) ^ 2 = 1 := by
    field_simp
    linarith [hp']
  rw [hsum, Real.sqrt_one]
  norm_num [CoordinateSystem.limits]

theorem C10_boundary_circle_witness :
    Real.sqrt ((from_beam_vector csA ⟨1, 0, 0⟩).1 ^ 2 +
      (from_beam_vector csA ⟨1, 0, 0⟩).2 ^ 2) = |csA.limits.1| :=
  C10_boundary_circle csA ⟨1, 0, 0⟩ csA_valid
    (by simp [csA, CoordinateSystem.make, Vec3.norm, Vec3.dot])
    (by simp [csA, CoordinateSystem.make, Vec3.dot])

theorem csA_s1hat : csA.s1.normalize = ⟨0, 1, 0⟩ := by
  ext <;> simp [csA, CoordinateSystem.make, Vec3.normalize, Vec3.smul,
    Vec3.norm, Vec3.dot]

/-- C1 counterexample: in the valid system csA, the vector s' = (0,-1,0)
has the same length as s1 = (0,1,0), yet the round trip
to_beam_vector(from_beam_vector(s')) returns s1 itself, whose y component
differs from that of s' by 2, far beyond 1e-7: the claim fails for
vectors on the far hemisphere. -/
theorem C1_beam_vector_round_trip_cex :
    csA.Valid ∧ (⟨0, -1, 0⟩ : Vec3).norm = csA.s1.norm ∧
      to_beam_vector csA (from_beam_vector csA ⟨0, -1, 0⟩) =
        Except.ok ⟨0, 1, 0⟩ ∧
      ¬ |(1 : ℝ) - (-1)| ≤ 1e-7 := by
  refine ⟨csA_valid, ?_, ?_, by norm_num⟩
  · simp [csA, CoordinateSystem.make, Vec3.norm, Vec3.dot]
  · have hsub : (⟨0, -1, 0⟩ : Vec3).sub csA.s1 = ⟨0, -2, 0⟩ := by
      ext <;> norm_num [csA, CoordinateSystem.make, Vec3.sub]
    have hfb : from_beam_vector csA ⟨0, -1, 0⟩ = (0, 0) := by
      simp only [from_beam_vector]
      rw [hsub, csA_e1, csA_e2, csA_n1]
      simp [Vec3.dot]
    rw [hfb]
    simp only [to_beam_vector]
    rw [if_pos (by norm_num)]
    rw [csA_e1, csA_e2, csA_n1, csA_s1hat]
    congr 1
    ext <;> norm_num [Vec3.smul, Vec3.add]

/-- C1 (amended): beam-vector round trip: for every validly constructed
system and every s' with the same length as s1 that lies on the same
hemisphere as s1 (s' . s1 >= 0, which the counterexample s' = -s1 shows
is necessary), to_beam_vector(cs, from_beam_vector(cs, s')) returns
exactly s' (hence within 1e-7). -/
theorem C1_beam_vector_round_trip (cs : CoordinateSystem) (sDash : Vec3)
    (h : cs.Valid) (hlen : sDash.norm = cs.s1.norm)
    (hpos : 0 ≤ sDash.dot cs.s1) :
    to_beam_vector cs (from_beam_vector cs sDash) = Except.ok sDash := by
  have hs1 : cs.s1 ≠ Vec3.zero := cs.s1_ne_zero h
  have hn1 : 0 < cs.s1.norm := Vec3.norm_pos _ hs1
  have hn1' : cs.s1.norm ≠ 0 := ne_of_gt hn1
  have he1 : cs.e1_axis.dot cs.e1_axis = 1 := cs.e1_dot_e1 h
  have hs1h : cs.s1.normalize.dot cs.s1.normalize = 1 :=
    Vec3.normalize_dot_self _ hs1
  have he1s1' : cs.e1_axis.dot cs.s1 = 0 := by
    rw [Vec3.dot_comm]; exact cs.s1_dot_e1
  have he1s1 : cs.e1_axis.dot cs.s1.normalize = 0 := by
    simp only [Vec3.normalize, Vec3.dot_smul_right, he1s1', mul_zero]
  have hp := Vec3.parseval cs.e1_axis cs.s1.normalize sDash he1 hs1h he1s1
  rw [cs.e1_cross_s1hat, Vec3.dot_smul_right] at hp
  have hss : sDash.dot sDash = cs.s1.norm ^ 2 := by
    rw [← Vec3.norm_sq, hlen]
  rw [hss] at hp
  have hp' : (sDash.dot cs.e1_axis) ^ 2 + (sDash.dot cs.e2_axis) ^ 2 +
      (sDash.dot cs.s1.normalize) ^ 2 = cs.s1.norm ^ 2 := by nlinarith [hp]
  have hGpos : 0 ≤ sDash.dot cs.s1.normalize := by
    simp only [Vec3.normalize, Vec3.dot_smul_right]
    have : (0 : ℝ) ≤ 1 / cs.s1.norm := by positivity
    exact mul_nonneg this hpos
  have hfb : from_beam_vector cs sDash =
      (sDash.dot cs.e1_axis / cs.s1.norm, sDash.dot cs.e2_axis / cs.s1.norm) := by
    simp only [from_beam_vector, Vec3.dot_sub_left]
    rw [show cs.s1.dot cs.e1_axis = 0 from cs.s1_dot_e1,
      show cs.s1.dot cs.e2_axis = 0 from cs.s1_dot_e2, sub_zero, sub_zero]
  rw [hfb]
  simp only [to_beam_vector]
  have hle : (sDash.dot cs.e1_axis / cs.s1.norm) ^ 2 +
      (sDash.dot cs.e2_axis / cs.s1.norm) ^ 2 ≤ 1 := by
    rw [div_pow, div_pow, div_add_div_same, div_le_one (by positivity)]
    nlinarith [hp', sq_nonneg (sDash.dot cs.s1.normalize)]
  rw [if_pos hle]
  have h1 : 1 - (sDash.dot cs.e1_axis / cs.s1.norm) ^ 2 -
      (sDash.dot cs.e2_axis / cs.s1.norm) ^ 2 =
      (sDash.dot cs.s1.normalize / cs.s1.norm) ^ 2 := by
    field_simp
    linarith [hp']
  have hsq : Real.sqrt (1 - (sDash.dot cs.e1_axis / cs.s1.norm) ^ 2 -
      (sDash.dot cs.e2_axis / cs.s1.norm) ^ 2) =
      sDash.dot cs.s1.normalize / cs.s1.norm := by
    rw [h1, Real.sqrt_sq (div_nonneg hGpos (le_of_lt hn1))]
  rw [hsq]
  have hrec := Vec3.frame_recon cs.e1_axis cs.s1.normalize sDash he1 hs1h he1s1
  rw [cs.e1_cross_s1hat, Vec3.dot_smul_right, Vec3.smul_smul,
    show (-1 : ℝ) * (sDash.dot cs.e2_axis) * (-1) = sDash.dot cs.e2_axis
      from by ring] at hrec
  have hfinal : Vec3.smul cs.s1.norm
      (((Vec3.smul (sDash.dot cs.e1_axis / cs.s1.norm) cs.e1_axis).add
        (Vec3.smul (sDash.dot cs.e2_axis / cs.s1.norm) cs.e2_axis)).add
        (Vec3.smul (sDash.dot cs.s1.normalize / cs.s1.norm) cs.s1.normalize)) =
      ((Vec3.smul (sDash.dot cs.e1_axis) cs.e1_axis).add
        ((Vec3.smul (sDash.dot cs.s1.normalize) cs.s1.normalize).add
          (Vec3.smul (sDash.dot cs.e2_axis) cs.e2_axis))) := by
    ext <;> simp only [Vec3.add, Vec3.smul] <;> field_simp <;> ring
  rw [hfinal, hrec]

theorem C1_beam_vector_round_trip_witness :
    to_beam_vector csA (from_beam_vector csA ⟨1, 0, 0⟩) =
      Except.ok ⟨1, 0, 0⟩ :=
  C1_beam_vector_round_trip csA ⟨1, 0, 0⟩ csA_valid
    (by simp [csA, CoordinateSystem.make, Vec3.norm, Vec3.dot])
    (by simp [csA, CoordinateSystem.make, Vec3.dot])

theorem Vec3.dot_sub_add_expand (m u w : Vec3) (r t : ℝ) :
    (m.sub ((Vec3.smul r u).add (Vec3.smul t w))).dot
      (m.sub ((Vec3.smul r u).add (Vec3.smul t w))) =
    m.dot m - 2 * r * (m.dot u) - 2 * t * (m.dot w) + r ^ 2 * (u.dot u) +
      2 * r * t * (u.dot w) + t ^ 2 * (w.dot w) := by
  simp only [Vec3.sub, Vec3.add, Vec3.smul, Vec3.dot]; ring

/-- Bessel inequality for the orthonormal pair e3, normalized p*: the
squared projections of the unit rotation axis sum to at most 1. -/
theorem CoordinateSystem.bessel_e3_pstar (cs : CoordinateSystem) (h : cs.Valid) :
    (cs.m2.dot cs.e3_axis) ^ 2 + (cs.m2.dot cs.p_star.normalize) ^ 2 ≤ 1 := by
  have hb := cs.e3_dot_e3 h
  have hphat : cs.p_star.normalize.dot cs.p_star.normalize = 1 :=
    Vec3.normalize_dot_self _ (cs.pstar_ne_zero h)
  have hperp : cs.e3_axis.dot cs.p_star.normalize = 0 := by
    simp only [Vec3.normalize, Vec3.dot_smul_right]
    rw [cs.e3_dot_pstar h, mul_zero]
  have hw := Vec3.dot_self_nonneg
    (cs.m2.sub ((Vec3.smul (cs.m2.dot cs.e3_axis) cs.e3_axis).add
      (Vec3.smul (cs.m2.dot cs.p_star.normalize) cs.p_star.normalize)))
  rw [Vec3.dot_sub_add_expand, cs.m2_dot_m2 h, hb, hphat, hperp] at hw
  nlinarith [hw]

/-- The kappa coefficient is bounded by 1/2 in absolute value for any
valid system. -/
theorem CoordinateSystem.abs_kappa_le (cs : CoordinateSystem) (h : cs.Valid) :
    |cs.kappa| ≤ 1 / 2 := by
  have hbes := cs.bessel_e3_pstar h
  rw [CoordinateSystem.kappa, abs_le]
  constructor
  · nlinarith [sq_nonneg (cs.m2.dot cs.e3_axis + cs.m2.dot cs.p_star.normalize)]
  · nlinarith [sq_nonneg (cs.m2.dot cs.e3_axis - cs.m2.dot cs.p_star.normalize)]

/-- The zeta factor is bounded by 1 in absolute value for any valid
system (Cauchy-Schwarz for the unit axis and unit e1). -/
theorem CoordinateSystem.abs_zeta_le (cs : CoordinateSystem) (h : cs.Valid) :
    |cs.zeta| ≤ 1 := by
  have hcs : (cs.m2.dot cs.e1_axis) ^ 2 ≤
      (cs.m2.dot cs.m2) * (cs.e1_axis.dot cs.e1_axis) := by
    nlinarith [Vec3.dot_self_nonneg (cs.m2.cross cs.e1_axis),
      Vec3.lagrange cs.m2 cs.e1_axis]
  rw [cs.m2_dot_m2 h, cs.e1_dot_e1 h, one_mul] at hcs
  have hz : cs.zeta ^ 2 ≤ 1 := hcs
  exact (sq_le_one_iff_abs_le_one cs.zeta).mp hz

/-- C5: fast/accurate agreement: for every validly constructed system and
every angle within one degree of phi, the fast (linearized) and accurate
rotation-angle coordinates differ by less than 1e-4. -/
theorem C5_fast_accurate_agreement (cs : CoordinateSystem) (phiDash : ℝ)
    (h : cs.Valid) (hr : |phiDash - cs.phi| ≤ Real.pi / 180) :
    |from_rotation_angle_fast cs phiDash -
      from_rotation_angle_accurate cs phiDash| < 1e-4 := by
  set θ := phiDash - cs.phi with hθdef
  have hζ : |cs.zeta| ≤ 1 := cs.abs_zeta_le h
  have hκ : |cs.kappa| ≤ 1 / 2 := cs.abs_kappa_le h
  have htpi : |θ| ≤ 7 / 400 := by
    have hpi := Real.pi_lt_d2
    have : Real.pi / 180 ≤ 7 / 400 := by linarith
    linarith
  have ht01 : |θ| ≤ 1 := by linarith
  have t0 : 0 ≤ |θ| := abs_nonneg θ
  have hsin := Real.sin_bound ht01
  have hcosle := Real.cos_le_one θ
  have hcosge : 1 - θ ^ 2 / 2 ≤ Real.cos θ := Real.one_sub_sq_div_two_le_cos
  have h1 : |θ - Real.sin θ| ≤ |θ| ^ 3 / 6 + |θ| ^ 4 * (5 / 96) := by
    have heq : θ - Real.sin θ = -(Real.sin θ - (θ - θ ^ 3 / 6)) + θ ^ 3 / 6 := by
      ring
    calc |θ - Real.sin θ|
        = |(-(Real.sin θ - (θ - θ ^ 3 / 6))) + θ ^ 3 / 6| := by rw [← heq]
      _ ≤ |(-(Real.sin θ - (θ - θ ^ 3 / 6)))| + |θ ^ 3 / 6| := abs_add _ _
      _ = |Real.sin θ - (θ - θ ^ 3 / 6)| + |θ ^ 3| / 6 := by
          rw [abs_neg, abs_div]
          norm_num
      _ ≤ |θ| ^ 4 * (5 / 96) + |θ| ^ 3 / 6 := by
          have hp3 : |θ ^ 3| = |θ| ^ 3 := abs_pow θ 3
          rw [hp3]
          linarith [hsin]
      _ = |θ| ^ 3 / 6 + |θ| ^ 4 * (5 / 96) := by ring
  have h2 : |1 - Real.cos θ| ≤ θ ^ 2 / 2 := by
    rw [abs_of_nonneg (by linarith)]
    linarith
  have hed : from_rotation_angle_fast cs phiDash -
      from_rotation_angle_accurate cs phiDash =
      cs.zeta * (θ - Real.sin θ) - cs.kappa * (1 - Real.cos θ) := by
    simp only [from_rotation_angle_fast, from_rotation_angle_accurate]
    ring
  rw [hed]
  have hsplit : |cs.zeta * (θ - Real.sin θ) - cs.kappa * (1 - Real.cos θ)| ≤
      |cs.zeta| * |θ - Real.sin θ| + |cs.kappa| * |1 - Real.cos θ| := by
    calc |cs.zeta * (θ - Real.sin θ) - cs.kappa * (1 - Real.cos θ)|
        ≤ |cs.zeta * (θ - Real.sin θ)| + |cs.kappa * (1 - Real.cos θ)| :=
          abs_sub _ _
      _ = |cs.zeta| * |θ - Real.sin θ| + |cs.kappa| * |1 - Real.cos θ| := by
          rw [abs_mul, abs_mul]
  have hb1 : |cs.zeta| * |θ - Real.sin θ| ≤ |θ| ^ 3 / 6 + |θ| ^ 4 * (5 / 96) := by
    calc |cs.zeta| * |θ - Real.sin θ| ≤ 1 * (|θ| ^ 3 / 6 + |θ| ^ 4 * (5 / 96)) :=
          mul_le_mul hζ h1 (abs_nonneg _) one_pos.le
      _ = |θ| ^ 3 / 6 + |θ| ^ 4 * (5 / 96) := one_mul _
  have hb2 : |cs.kappa| * |1 - Real.cos θ| ≤ (1 / 2) * (θ ^ 2 / 2) :=
    mul_le_mul hκ h2 (abs_nonneg _) (by norm_num)
  have t2 : |θ| ^ 2 ≤ (7 / 400 : ℝ) ^ 2 := by nlinarith
  have t3 : |θ| ^ 3 ≤ (7 / 400 : ℝ) ^ 3 := by nlinarith
  have t4 : |θ| ^ 4 ≤ (7 / 400 : ℝ) ^ 4 := by nlinarith
  have hθsq : θ ^ 2 = |θ| ^ 2 := (sq_abs θ).symm
  have hfin : |θ| ^ 3 / 6 + |θ| ^ 4 * (5 / 96) + (1 / 2) * (θ ^ 2 / 2) <
      1e-4 := by
    rw [hθsq]
    have e2 : ((7 : ℝ) / 400) ^ 2 = 49 / 160000 := by norm_num
    have e3 : ((7 : ℝ) / 400) ^ 3 = 343 / 64000000 := by norm_num
    have e4 : ((7 : ℝ) / 400) ^ 4 = 2401 / 25600000000 := by norm_num
    rw [e2] at t2
    rw [e3] at t3
    rw [e4] at t4
    have : (1e-4 : ℝ) = 1 / 10000 := by norm_num
    rw [this]
    linarith
  linarith [hsplit, hb1, hb2, hfin]

theorem C5_fast_accurate_agreement_witness :
    |from_rotation_angle_fast csA (1 / 100) -
      from_rotation_angle_accurate csA (1 / 100)| < 1e-4 :=
  C5_fast_accurate_agreement csA (1 / 100) csA_valid
    (by
      rw [csA_phi, sub_zero, abs_of_nonneg (by norm_num)]
      have := Real.pi_gt_three
      linarith)

theorem CoordinateSystem.limits_l2 (cs : CoordinateSystem) :
    cs.limits.2.2.1 = cs.kappa - cs.zeta := by
  show from_rotation_angle_accurate cs (cs.phi - Real.pi / 2) = _
  rw [from_rotation_angle_accurate]
  have harg : cs.phi - Real.pi / 2 - cs.phi = -(Real.pi / 2) := by ring
  rw [harg, Real.sin_neg, Real.sin_pi_div_two, Real.cos_neg,
    Real.cos_pi_div_two]
  ring

theorem CoordinateSystem.limits_l3 (cs : CoordinateSystem) :
    cs.limits.2.2.2 = cs.kappa + cs.zeta := by
  show from_rotation_angle_accurate cs (cs.phi + Real.pi / 2) = _
  rw [from_rotation_angle_accurate]
  have harg : cs.phi + Real.pi / 2 - cs.phi = Real.pi / 2 := by ring
  rw [harg, Real.sin_pi_div_two, Real.cos_pi_div_two]
  ring

theorem abs_sin_eq_sin_abs (x : ℝ) (hx : |x| ≤ Real.pi) :
    |Real.sin x| = Real.sin |x| := by
  rcases le_or_lt 0 x with h | h
  · rw [abs_of_nonneg h,
      abs_of_nonneg (Real.sin_nonneg_of_nonneg_of_le_pi h
        (by rwa [abs_of_nonneg h] at hx))]
  · have hx' : -Real.pi ≤ x := (abs_le.mp hx).1
    rw [abs_of_neg h,
      abs_of_nonpos (Real.sin_nonpos_of_nonnpos_of_neg_pi_le (le_of_lt h) hx'),
      Real.sin_neg]

/-- C2 counterexample: in the valid system csB the rotation axis is
orthogonal to e1 (zeta = 0), the two circle-intersection branches are
equidistant from phi, and the stored limits()[2:] interval degenerates to
the single point kappa; the round trip at phi' = phi - pi/40 (within the
claimed +-5 degrees) does not return phi' but fails with a domain error. -/
theorem C2_rotation_angle_round_trip_cex :
    csB.Valid ∧ |(-(Real.pi / 40)) - csB.phi| ≤ 5 * Real.pi / 180 ∧
      to_rotation_angle_accurate csB
        (from_rotation_angle_accurate csB (-(Real.pi / 40))) =
        Except.error XdsError.domainError := by
  refine ⟨csB_valid, ?_, ?_⟩
  · rw [csB_phi, sub_zero, abs_neg, abs_of_nonneg (by positivity)]
    linarith [Real.pi_pos]
  · have hc3 : from_rotation_angle_accurate csB (-(Real.pi / 40)) =
        (1 / 2) * (1 - Real.cos (Real.pi / 40)) := by
      rw [from_rotation_angle_accurate, csB_zeta, csB_kappa, csB_phi, sub_zero,
        Real.cos_neg]
      ring
    have hcos : 0 < Real.cos (Real.pi / 40) :=
      Real.cos_pos_of_mem_Ioo
        ⟨by linarith [Real.pi_pos], by linarith [Real.pi_pos]⟩
    rw [hc3]
    simp only [to_rotation_angle_accurate]
    rw [CoordinateSystem.limits_l2, CoordinateSystem.limits_l3, csB_zeta,
      csB_kappa]
    have hcond : (1 / 2) * (1 - Real.cos (Real.pi / 40)) <
        min ((1 : ℝ) / 2 - 0) (1 / 2 + 0) ∨
        max ((1 : ℝ) / 2 - 0) (1 / 2 + 0) <
          (1 / 2) * (1 - Real.cos (Real.pi / 40)) := by
      left
      have hm : min ((1 : ℝ) / 2 - 0) (1 / 2 + 0) = 1 / 2 := by norm_num
      rw [hm]
      linarith
    rw [if_pos hcond]

/-- C2 (amended): rotation-angle round trip with branch selection: for
every validly constructed system whose zeta is nonzero and whose branch
phase offset A = arcsin(kappa / sqrt(zeta^2 + kappa^2)) satisfies
|phi' - phi| + 2|A| <= pi/2 (the counterexample with zeta = 0 shows some
such axis restriction is necessary), and every phi' within +-5 degrees of
phi, to_rotation_angle_accurate returns exactly phi' on
from_rotation_angle_accurate(phi'): the branch nearest phi is selected. -/
theorem C2_rotation_angle_round_trip (cs : CoordinateSystem) (phiDash : ℝ)
    (h : cs.Valid) (hz : cs.zeta ≠ 0)
    (hrange : |phiDash - cs.phi| ≤ 5 * Real.pi / 180)
    (hbranch : |phiDash - cs.phi| +
      2 * |Real.arcsin (cs.kappa / Real.sqrt (cs.zeta ^ 2 + cs.kappa ^ 2))| ≤
      Real.pi / 2) :
    to_rotation_angle_accurate cs (from_rotation_angle_accurate cs phiDash) =
      Except.ok phiDash := by
  simp only [to_rotation_angle_accurate, from_rotation_angle_accurate,
    CoordinateSystem.limits_l2, CoordinateSystem.limits_l3]
  set θ := phiDash - cs.phi with hθdef
  set ζ := cs.zeta with hζdef
  set κ := cs.kappa with hκdef
  set R := Real.sqrt (ζ ^ 2 + κ ^ 2) with hRdef
  set A := Real.arcsin (κ / R) with hAdef
  set c3 := ζ * Real.sin θ + κ * (1 - Real.cos θ) with hc3def
  have hζ2 : 0 < ζ ^ 2 :=
    lt_of_le_of_ne (sq_nonneg ζ) (Ne.symm (pow_ne_zero 2 hz))
  have hRpos : 0 < R := Real.sqrt_pos.mpr (by nlinarith [sq_nonneg κ])
  have hR2 : R ^ 2 = ζ ^ 2 + κ ^ 2 := Real.sq_sqrt (by positivity)
  have hκR : |κ / R| ≤ 1 := by
    rw [abs_div, abs_of_pos hRpos, div_le_one hRpos]
    calc |κ| = Real.sqrt (κ ^ 2) := (Real.sqrt_sq_eq_abs κ).symm
      _ ≤ Real.sqrt (ζ ^ 2 + κ ^ 2) := Real.sqrt_le_sqrt (by nlinarith)
      _ = R := by rw [hRdef]
  have hκR1 := abs_le.mp hκR
  have hsinA : Real.sin A = κ / R := Real.sin_arcsin hκR1.1 hκR1.2
  have hcosA : Real.cos A = |ζ| / R := by
    rw [hAdef, Real.cos_arcsin]
    have h1 : 1 - (κ / R) ^ 2 = ζ ^ 2 / R ^ 2 := by
      field_simp
      linarith [hR2]
    rw [h1, show ζ ^ 2 / R ^ 2 = (|ζ| / R) ^ 2 by rw [div_pow, sq_abs]]
    exact Real.sqrt_sq (by positivity)
  have hA2 : |A| ≤ Real.pi / 2 :=
    abs_le.mpr ⟨Real.neg_pi_div_two_le_arcsin _, Real.arcsin_le_pi_div_two _⟩
  have hAnn : 0 ≤ |A| := abs_nonneg A
  have hπ := Real.pi_pos
  rcases lt_or_gt_of_ne hz with hneg | hpos
  · -- zeta negative: the branch formula runs through -sin(θ + A)
    have habsζ : |ζ| = -ζ := abs_of_neg hneg
    have hkey : (c3 - κ) / R = -Real.sin (θ + A) := by
      rw [Real.sin_add, hsinA, hcosA, habsζ, hc3def]
      field_simp
      ring
    have htA : |θ + A| ≤ |θ| + |A| := abs_add θ A
    have hθA : |θ + A| ≤ Real.pi / 2 := by linarith
    have habsθA := abs_le.mp hθA
    have hsmall : |Real.sin (θ + A)| ≤ Real.cos A := by
      have h1 : |θ + A| ≤ Real.pi / 2 - |A| := by linarith
      have h2 : |Real.sin (θ + A)| = Real.sin |θ + A| :=
        abs_sin_eq_sin_abs _ (by linarith)
      rw [h2]
      have h3 : Real.sin |θ + A| ≤ Real.sin (Real.pi / 2 - |A|) := by
        apply Real.strictMonoOn_sin.monotoneOn
          ⟨by linarith [abs_nonneg (θ + A)], by linarith [abs_nonneg (θ + A)]⟩
          ⟨by linarith, by linarith⟩ h1
      rwa [Real.sin_pi_div_two_sub, Real.cos_abs] at h3
    have hbound : |c3 - κ| ≤ -ζ := by
      have hcR : c3 - κ = R * (-Real.sin (θ + A)) := by
        rw [← hkey]
        field_simp
      rw [hcR, abs_mul, abs_of_pos hRpos, abs_neg]
      calc R * |Real.sin (θ + A)| ≤ R * Real.cos A :=
            mul_le_mul_of_nonneg_left hsmall (le_of_lt hRpos)
        _ = -ζ := by
            rw [hcosA, habsζ]
            field_simp
            ring
    have habs := abs_le.mp hbound
    have hcond : ¬(c3 < min (κ - ζ) (κ + ζ) ∨ max (κ - ζ) (κ + ζ) < c3) := by
      push_neg
      constructor
      · rw [min_eq_right (by linarith)]
        linarith
      · rw [max_eq_left (by linarith)]
        linarith
    rw [if_neg hcond]
    congr 1
    rw [Real.sign_of_neg hneg, hkey,
      show -Real.sin (θ + A) = Real.sin (-(θ + A)) by rw [Real.sin_neg],
      Real.arcsin_sin (by linarith) (by linarith)]
    rw [hθdef]
    ring
  · -- zeta positive: the branch formula runs through sin(θ - A)
    have habsζ : |ζ| = ζ := abs_of_pos hpos
    have hkey : (c3 - κ) / R = Real.sin (θ - A) := by
      rw [Real.sin_sub, hsinA, hcosA, habsζ, hc3def]
      field_simp
      ring
    have htA : |θ - A| ≤ |θ| + |A| := abs_sub θ A
    have hθA : |θ - A| ≤ Real.pi / 2 := by linarith
    have habsθA := abs_le.mp hθA
    have hsmall : |Real.sin (θ - A)| ≤ Real.cos A := by
      have h1 : |θ - A| ≤ Real.pi / 2 - |A| := by linarith
      have h2 : |Real.sin (θ - A)| = Real.sin |θ - A| :=
        abs_sin_eq_sin_abs _ (by linarith)
      rw [h2]
      have h3 : Real.sin |θ - A| ≤ Real.sin (Real.pi / 2 - |A|) := by
        apply Real.strictMonoOn_sin.monotoneOn
          ⟨by linarith [abs_nonneg (θ - A)], by linarith [abs_nonneg (θ - A)]⟩
          ⟨by linarith, by linarith⟩ h1
      rwa [Real.sin_pi_div_two_sub, Real.cos_abs] at h3
    have hbound : |c3 - κ| ≤ ζ := by
      have hcR : c3 - κ = R * Real.sin (θ - A) := by
        rw [← hkey]
        field_simp
      rw [hcR, abs_mul, abs_of_pos hRpos]
      calc R * |Real.sin (θ - A)| ≤ R * Real.cos A :=
            mul_le_mul_of_nonneg_left hsmall (le_of_lt hRpos)
        _ = ζ := by
            rw [hcosA, habsζ]
            field_simp
    have habs := abs_le.mp hbound
    have hcond : ¬(c3 < min (κ - ζ) (κ + ζ) ∨ max (κ - ζ) (κ + ζ) < c3) := by
      push_neg
      constructor
      · rw [min_eq_left (by linarith)]
        linarith
      · rw [max_eq_right (by linarith)]
        linarith
    rw [if_neg hcond]
    congr 1
    rw [Real.sign_of_pos hpos, hkey,
      Real.arcsin_sin (by linarith) (by linarith)]
    rw [hθdef]
    ring

theorem C2_rotation_angle_round_trip_witness :
    to_rotation_angle_accurate csA (from_rotation_angle_accurate csA (1 / 20)) =
      Except.ok (1 / 20) :=
  C2_rotation_angle_round_trip csA (1 / 20) csA_valid
    (by rw [csA_zeta]; norm_num)
    (by
      rw [csA_phi, sub_zero, abs_of_nonneg (by norm_num : (0 : ℝ) ≤ 1 / 20)]
      have := Real.pi_gt_three
      linarith)
    (by
      rw [csA_phi, csA_zeta, csA_kappa, sub_zero]
      have h0 : (0 : ℝ) / Real.sqrt (1 ^ 2 + 0 ^ 2) = 0 := by norm_num
      rw [h0, Real.arcsin_zero, abs_zero, mul_zero, add_zero,
        abs_of_nonneg (by norm_num : (0 : ℝ) ≤ 1 / 20)]
      have := Real.pi_gt_three
      linarith)
